import Mathlib

/-!
Verification of the command registry / dispatcher / argument-binding core of
the `shell` repository, as a shallow embedding in Lean 4.

The embedding follows the Rust source:
  * `command_core/src/registry.rs`       — `CommandRegistry::find`, `execute_command`
  * `command_core/src/command_info.rs`   — `CommandInfo`
  * `command_core/src/command_error.rs`  — `CommandError`
  * `command_core/src/parse_argument.rs` — the `ParseArgument` converters
  * `command_macro/src/lib.rs`           — the `#[command]` attribute expansion:
    `min_count`, `detect_last_arg`, `generate_parse_exprs`, and the generated
    `CommandHandler::call` body
  * `shell/src/file_commands.rs`         — concrete commands such as `touch`

Rust's `&'static CommandInfo` inside `CommandError` is mutually recursive with
the handler function type through a reference; in a strictly positive Lean
embedding the errors carry the handler-free metadata (`CommandMeta`) while the
registry entries (`CommandInfo`) pair that metadata with the handler function.
Rust panics (out-of-bounds indexing `args[i]`, out-of-bounds slicing
`args[i..]`, `Option::unwrap`) are modelled by `Option`-valued results, `none`
standing for a panic, so that panic-freedom is a provable statement rather
than an artifact of using total Lean functions.
-/

/-- The handler-free part of `CommandInfo` (command_core/src/command_info.rs):
name, description, aliases and the arity bounds `min`/`max`. -/
structure CommandMeta where
  name : String
  description : String
  aliases : List String
  min : Nat
  max : Nat
deriving DecidableEq, Repr

/-- `CommandError` (command_core/src/command_error.rs).  The `TooFewArguments`
and `TooManyArguments` variants carry the offending argument count and the
descriptor (its handler-free metadata, see the module comment); the variants
that wrap an `io::Error` carry the formatted message as a string. -/
inductive CommandError where
  | TooFewArguments (given : Nat) (info : CommandMeta)
  | TooManyArguments (given : Nat) (info : CommandMeta)
  | CommandNotFound (name : String)
  | CommandFailed (msg : String)
  | InvalidArguments (msg : String)
  | CannotAccessCurrentDirectory (msg : String)
  | DirectoryReadError (path : String) (msg : String)
  | FileReadError (path : String) (msg : String)
deriving DecidableEq, Repr

/-- `CommandInfo` (command_core/src/command_info.rs): the metadata plus the
handler, a function from the raw argument tokens to a `Result<(), CommandError>`. -/
structure CommandInfo where
  meta : CommandMeta
  handler : List String → Except CommandError Unit

/-- `usize::MAX` on the 64-bit target the source compiles for; the sentinel
value used by the macro for an unbounded `max` and tested for by the
dispatcher's arity check. -/
def USIZE_MAX : Nat := 2 ^ 64 - 1

/-- `CommandRegistry::find` (registry.rs lines 10–20): the first registered
descriptor, in registration order, whose `name` equals the token or whose
`aliases` contain it.  `COMMANDS.iter().find_map(..)` over the distributed
slice is modelled as recursion over the registration-ordered list. -/
def CommandRegistry.find : List CommandInfo → String → Option CommandInfo
  | [], _ => none
  | info :: rest, name =>
    if info.meta.name == name || info.meta.aliases.any (fun a => a == name) then
      some info
    else
      CommandRegistry.find rest name

/-- `CommandRegistry::execute_command` (registry.rs lines 22–36): resolve the
name, check `args.len() < info.min`, check
`args.len() > info.max && info.max != usize::MAX`, and only then invoke the
handler on the raw arguments. -/
def CommandRegistry.execute_command (cmds : List CommandInfo) (name : String)
    (args : List String) : Except CommandError Unit :=
  match CommandRegistry.find cmds name with
  | some info =>
    if args.length < info.meta.min then
      .error (.TooFewArguments args.length info.meta)
    else if args.length > info.meta.max ∧ info.meta.max ≠ USIZE_MAX then
      .error (.TooManyArguments args.length info.meta)
    else
      info.handler args
  | none => .error (.CommandNotFound name)

/-- `CommandRegistry::all` (registry.rs lines 38–40). -/
def CommandRegistry.all (cmds : List CommandInfo) : List CommandInfo := cmds

/-- Two registries with the same registration-ordered metadata (the handlers
may differ).  Used to state that a dispatch outcome does not depend on any
handler, i.e. that no handler was invoked. -/
def sameMetas (cmds cmds' : List CommandInfo) : Prop :=
  cmds.map CommandInfo.meta = cmds'.map CommandInfo.meta

/-- The syntactic shape of a Rust parameter type as far as the `#[command]`
macro inspects it (command_macro/src/lib.rs `extract_option_inner`,
`extract_vec_inner`): the scalar types with `ParseArgument` impls that the
shell commands use, plus `Option<_>` and `Vec<_>` wrappers. -/
inductive RustTy where
  | str
  | char
  | bool
  | i32
  | path
  | option (inner : RustTy)
  | vec (inner : RustTy)
deriving DecidableEq, Repr

/-- Typed values produced by the converters and passed to the underlying
command function by the generated binding code. -/
inductive Value where
  | str (s : String)
  | char (c : Char)
  | bool (b : Bool)
  | i32 (n : Int)
  | path (s : String)
  | opt (v : Option Value)
  | list (vs : List Value)

/-- Accumulate base-10 ASCII digits, failing on any non-digit
(`i32::from_str` digit loop). -/
def digitsAcc : Nat → List Char → Option Nat
  | acc, [] => some acc
  | acc, c :: rest =>
    if c.isDigit then digitsAcc (acc * 10 + (c.toNat - Char.toNat '0')) rest
    else none

/-- All-digit parse of a non-empty digit string (`i32::from_str` requires at
least one digit after the optional sign). -/
def digitsToNat : List Char → Option Nat
  | [] => none
  | cs => digitsAcc 0 cs

/-- Rust `i32::from_str` (the platform's canonical base-10 parse that
`impl_parse_number!` delegates to): optional leading `+`/`-` sign, one or more
ASCII digits, and the value must fit the `i32` range; `none` on empty input,
invalid digits or overflow. -/
def parse_i32 (s : String) : Option Int :=
  let split : Bool × List Char :=
    match s.toList with
    | '+' :: r => (false, r)
    | '-' :: r => (true, r)
    | r => (false, r)
  match digitsToNat split.2 with
  | none => none
  | some n =>
    if split.1 then
      if n ≤ 2 ^ 31 then some (-(n : Int)) else none
    else
      if n ≤ 2 ^ 31 - 1 then some (n : Int) else none

/-- Rust `str::to_lowercase`, as the source's `bool` converter uses it: on the
ASCII inputs the converter distinguishes, Unicode full lowercasing is exactly
the per-character lowercase map. -/
def to_lowercase (s : String) : String := String.mk (s.data.map Char.toLower)

/-- The `ParseArgument` impls (command_core/src/parse_argument.rs), dispatched
by type: `&str`/`String` and `PathBuf` are the identity, `char` accepts exactly
one character, `bool` lowercases and accepts `true`/`1`/`false`/`0`, and the
numeric impls delegate to the canonical parse (represented here by `i32`, the
element type the claims exercise).  `Option<_>` and `Vec<_>` have no
`ParseArgument` impl in the source — a parameter shape that would demand one
is rejected by the Rust type checker — so the embedding returns a distinguished
error on those shapes; the binding code never reaches it for shapes that
compile. -/
def parseArgument : RustTy → String → Except CommandError Value
  | .str, s => .ok (.str s)
  | .path, s => .ok (.path s)
  | .char, s =>
    match s.toList with
    | [c] => .ok (.char c)
    | _ => .error (.CommandFailed ("Invalid char: '" ++ s ++ "'"))
  | .bool, s =>
    let l := to_lowercase s
    if l == "true" || l == "1" then .ok (.bool true)
    else if l == "false" || l == "0" then .ok (.bool false)
    else .error (.CommandFailed ("Invalid bool: '" ++ s ++ "'"))
  | .i32, s =>
    match parse_i32 s with
    | some v => .ok (.i32 v)
    | none => .error (.CommandFailed ("Invalid i32: '" ++ s ++ "'"))
  | .option _, _ => .error (.InvalidArguments "no ParseArgument impl for Option")
  | .vec _, _ => .error (.InvalidArguments "no ParseArgument impl for Vec")

/-- Elementwise conversion of a token slice,
`iter().map(parse).collect::<Result<Vec<_>, _>>()`: the first failing element
aborts the whole collection with its error. -/
def parse_all (ty : RustTy) : List String → Except CommandError (List Value)
  | [] => .ok []
  | s :: rest =>
    match parseArgument ty s with
    | .error e => .error e
    | .ok v =>
      match parse_all ty rest with
      | .error e => .error e
      | .ok vs => .ok (v :: vs)

/-- `extract_option_inner` (command_macro/src/lib.rs lines 53–64): the inner
type when the parameter type's head is `Option`. -/
def extract_option_inner : RustTy → Option RustTy
  | .option t => some t
  | _ => none

/-- `extract_vec_inner` (command_macro/src/lib.rs lines 66–77): the inner type
when the parameter type's head is `Vec`. -/
def extract_vec_inner : RustTy → Option RustTy
  | .vec t => some t
  | _ => none

/-- `min_count` (command_macro/src/lib.rs lines 79–81): the number of
parameters whose type is not `Option<_>`.  Note that a `Vec<_>` (variadic)
parameter is counted. -/
def min_count (tys : List RustTy) : Nat :=
  (tys.filter (fun ty => (extract_option_inner ty).isNone)).length

/-- Rust `Option::or`. -/
def option_or (a b : Option RustTy) : Option RustTy :=
  match a with
  | some x => some x
  | none => b

/-- `detect_last_arg` (command_macro/src/lib.rs lines 84–92): for the last
parameter, `(is_last_vec, last_vec_inner, is_last_option_vec)`.  `is_last_vec`
is true only for a bare `Vec<_>`; for `Option<Vec<_>>` it is false while
`is_last_option_vec` is true. -/
def detect_last_arg (tys : List RustTy) : Bool × Option RustTy × Bool :=
  match tys.getLast? with
  | some lastTy =>
    let vecInner := extract_vec_inner lastTy
    let optionVecInner := (extract_option_inner lastTy).bind extract_vec_inner
    (vecInner.isSome, option_or vecInner optionVecInner, optionVecInner.isSome)
  | none => (false, none, false)

/-- The `max_args` computed by the macro (command_macro/src/lib.rs line 170):
`usize::MAX` when the last parameter is a bare `Vec<_>`, otherwise the total
parameter count. -/
def macro_max (tys : List RustTy) : Nat :=
  if (detect_last_arg tys).1 then USIZE_MAX else tys.length

/-- Rust slice `args[i..]`: panics (`none`) when `i > args.len()`. -/
def slice_from (args : List String) (i : Nat) : Option (List String) :=
  if i ≤ args.length then some (args.drop i) else none

/-- The `parse_single` closure of `generate_parse_exprs`
(command_macro/src/lib.rs lines 103–118), as the runtime behaviour of the
generated statement for one scalar parameter at position `idx`:
an `Option<_>` parameter binds `Some(parse(args[idx])?)` when
`args.len() > idx` and `None` otherwise; any other parameter first returns
`TooFewArguments` when `args.len() <= idx` and otherwise binds
`parse(args[idx])?`.  The outer `Option` is the panic monad for the `args[idx]`
index access (always guarded, hence provably never `none`). -/
def parse_single_sem (meta : CommandMeta) (args : List String) (ty : RustTy)
    (idx : Nat) : Option (Except CommandError Value) :=
  match extract_option_inner ty with
  | some inner =>
    if args.length > idx then
      match args.get? idx with
      | some tok =>
        some (match parseArgument inner tok with
          | .error e => .error e
          | .ok v => .ok (.opt (some v)))
      | none => none
    else
      some (.ok (.opt none))
  | none =>
    if args.length ≤ idx then
      some (.error (.TooFewArguments args.length meta))
    else
      match args.get? idx with
      | some tok => some (parseArgument ty tok)
      | none => none

/-- The generated statement for the parameter at position `i`
(`generate_parse_exprs`, command_macro/src/lib.rs lines 102–142): positions
before the last use `parse_single`; the last position uses the `Vec` tail
binding when `is_last_vec` (with `last_vec_inner.unwrap()` — a panic, `none`,
if absent), the `Option<Vec<_>>` variant when additionally
`is_last_option_vec`, and `parse_single` otherwise. -/
def bind_expr (meta : CommandMeta) (last_index : Nat) (is_last_vec : Bool)
    (last_vec_inner : Option RustTy) (is_last_option_vec : Bool)
    (args : List String) (i : Nat) (ty : RustTy) :
    Option (Except CommandError Value) :=
  if i < last_index then parse_single_sem meta args ty i
  else if is_last_vec then
    match last_vec_inner with
    | none => none
    | some innerTy =>
      if is_last_option_vec then
        if args.length > i then
          match slice_from args i with
          | none => none
          | some tail =>
            some (match parse_all innerTy tail with
              | .error e => .error e
              | .ok vs => .ok (.opt (some (.list vs))))
        else
          some (.ok (.opt none))
      else
        if args.length ≤ i then
          some (.error (.TooFewArguments args.length meta))
        else
          match slice_from args i with
          | none => none
          | some tail =>
            some (match parse_all innerTy tail with
              | .error e => .error e
              | .ok vs => .ok (.list vs))
  else parse_single_sem meta args ty i

/-- Sequential execution of the generated parse statements from position `i`
on: the first failing statement aborts the call with its error (the generated
code uses `?` and early `return`), and a successful run collects the bound
values in order. -/
def bind_from (meta : CommandMeta) (last_index : Nat) (is_last_vec : Bool)
    (last_vec_inner : Option RustTy) (is_last_option_vec : Bool)
    (args : List String) : Nat → List RustTy →
    Option (Except CommandError (List Value))
  | _, [] => some (.ok [])
  | i, ty :: rest =>
    match bind_expr meta last_index is_last_vec last_vec_inner is_last_option_vec
        args i ty with
    | none => none
    | some (.error e) => some (.error e)
    | some (.ok v) =>
      match bind_from meta last_index is_last_vec last_vec_inner
          is_last_option_vec args (i + 1) rest with
      | none => none
      | some (.error e) => some (.error e)
      | some (.ok vs) => some (.ok (v :: vs))

/-- The body of the generated `CommandHandler::call` up to the final call of
the underlying function (command_macro/src/lib.rs lines 180–191): the
`args.len() < min_args` and `args.len() > max_args` prechecks, then the parse
statements in order; `some (.ok vals)` means every parameter bound
successfully with the values `vals`.  `last_index`, `is_last_vec`,
`last_vec_inner` and `is_last_option_vec` are computed from the parameter
shape exactly as the macro computes them (lines 166–171). -/
def generated_call (meta : CommandMeta) (tys : List RustTy)
    (args : List String) : Option (Except CommandError (List Value)) :=
  let last_index := tys.length - 1
  let dl := detect_last_arg tys
  if args.length < min_count tys then
    some (.error (.TooFewArguments args.length meta))
  else if args.length > macro_max tys then
    some (.error (.TooManyArguments args.length meta))
  else
    bind_from meta last_index dl.1 dl.2.1 dl.2.2 args 0 tys

/-- The full generated `CommandHandler::call` for an underlying command
function `fn`: run the generated binding and call `fn` on the bound values;
the panic branch is unreachable (proved below) and mapped to an error. -/
def expanded_handler (meta : CommandMeta) (tys : List RustTy)
    (fn : List Value → Except CommandError Unit) (args : List String) :
    Except CommandError Unit :=
  match generated_call meta tys args with
  | some (.ok vals) => fn vals
  | some (.error e) => .error e
  | none => .error (.CommandFailed "index out of bounds")

/-- The `CommandMeta` of the static `CommandInfo` the macro registers
(command_macro/src/lib.rs lines 198–206). -/
def expanded_meta (name description : String) (aliases : List String)
    (tys : List RustTy) : CommandMeta :=
  { name := name, description := description, aliases := aliases,
    min := min_count tys, max := macro_max tys }

/-- The registry entry produced by one `#[command]` expansion: the static
`CommandInfo` with the computed arity bounds and the generated handler. -/
def expanded_command (name description : String) (aliases : List String)
    (tys : List RustTy) (fn : List Value → Except CommandError Unit) :
    CommandInfo :=
  { meta := expanded_meta name description aliases tys,
    handler := expanded_handler (expanded_meta name description aliases tys) tys fn }

/-- The attribute arguments of one `#[command(..)]` use together with the
declared parameter shape of the function it is attached to. -/
structure MacroInput where
  name : Option String
  description : Option String
  aliases : List String
  param_tys : List RustTy

/-- The descriptor-building part of the `command` macro expansion
(command_macro/src/lib.rs lines 145–210): it fails (panics, `none`) only when
the `name` attribute argument is missing (`.expect("Missing name ..")`,
line 162); the parameter shape is never inspected for validity — `min` and
`max` are computed and the static descriptor is emitted for every shape. -/
def command_expand (inp : MacroInput) : Option (CommandMeta × List RustTy) :=
  match inp.name with
  | none => none
  | some n =>
    some (expanded_meta n (inp.description.getD "") inp.aliases inp.param_tys,
      inp.param_tys)

/-- The parameter shape of `cmd_touch` (shell/src/file_commands.rs lines
80–91): a single required `Vec<String>` parameter. -/
def cmd_touch_tys : List RustTy := [RustTy.vec RustTy.str]

/-- The registry entry the macro produces for `cmd_touch`, parameterised by
the underlying function so that invocation (or its absence) is observable. -/
def cmd_touch_info (fn : List Value → Except CommandError Unit) : CommandInfo :=
  expanded_command "touch" "Makes a new empty file" [] cmd_touch_tys fn

/-- The mixed parameter shape of the spec's fail-fast scenario: two required
string parameters followed by a variadic integer tail. -/
def mixed_tys : List RustTy := [RustTy.str, RustTy.str, RustTy.vec RustTy.i32]

/-- Claim-side arity floor, following the spec's words: the count of parameter
specs that are not `optional` (`Option`-typed) and not `variadic`
(`Vec`-typed).  Stated only to be compared against `min_count`, the arity
floor the macro actually computes. -/
def spec_min_arity (tys : List RustTy) : Nat :=
  (tys.filter
    (fun ty => (extract_option_inner ty).isNone && (extract_vec_inner ty).isNone)).length

/-- Fixture: a command named `a` carrying alias `x`, registered first. -/
def aliasHolder : CommandInfo :=
  { meta := { name := "a", description := "", aliases := ["x"], min := 0, max := 0 },
    handler := fun _ => .ok () }

/-- Fixture: a command named `x`, registered after `aliasHolder`. -/
def nameHolder : CommandInfo :=
  { meta := { name := "x", description := "", aliases := [], min := 0, max := 0 },
    handler := fun _ => .ok () }

/-- Fixture: a zero-to-one argument command resembling `help`
(min 0, max 1, bounded). -/
def helpLike : CommandInfo :=
  { meta := { name := "help", description := "Displays help information",
              aliases := [], min := 0, max := 1 },
    handler := fun _ => .ok () }

theorem find_cons_eq (a : CommandInfo) (as : List CommandInfo) (tok : String) :
    CommandRegistry.find (a :: as) tok =
      if (a.meta.name == tok || a.meta.aliases.any (fun x => x == tok)) = true
      then some a else CommandRegistry.find as tok := rfl

theorem find_meta_congr (tok : String) :
    ∀ (cmds cmds' : List CommandInfo), sameMetas cmds cmds' →
      (CommandRegistry.find cmds tok).map CommandInfo.meta =
        (CommandRegistry.find cmds' tok).map CommandInfo.meta := by
  intro cmds
  induction cmds with
  | nil =>
    intro cmds' h
    cases cmds' with
    | nil => rfl
    | cons b bs => simp [sameMetas] at h
  | cons a as ih =>
    intro cmds' h
    cases cmds' with
    | nil => simp [sameMetas] at h
    | cons b bs =>
      simp only [sameMetas, List.map_cons, List.cons.injEq] at h
      obtain ⟨hm, ht⟩ := h
      rw [find_cons_eq, find_cons_eq, hm]
      by_cases hc : (b.meta.name == tok || b.meta.aliases.any (fun x => x == tok)) = true
      · rw [if_pos hc, if_pos hc]
        simp [hm]
      · rw [if_neg hc, if_neg hc]
        exact ih bs ht

theorem find_none_iff (tok : String) (cmds : List CommandInfo) :
    CommandRegistry.find cmds tok = none ↔
      ∀ info ∈ cmds, info.meta.name ≠ tok ∧ tok ∉ info.meta.aliases := by
  induction cmds with
  | nil => simp [CommandRegistry.find]
  | cons a as ih =>
    rw [find_cons_eq]
    by_cases hc : (a.meta.name == tok || a.meta.aliases.any (fun x => x == tok)) = true
    · rw [if_pos hc]
      constructor
      · intro h; cases h
      · intro h
        exfalso
        have ha := h a (List.mem_cons_self a as)
        have hc' : a.meta.name = tok ∨ ∃ x ∈ a.meta.aliases, x = tok := by
          simpa using hc
        rcases hc' with h1 | ⟨x, hx, rfl⟩
        · exact ha.1 h1
        · exact ha.2 hx
    · rw [if_neg hc, ih]
      constructor
      · intro h info hinfo
        rcases List.mem_cons.mp hinfo with rfl | hmem
        · refine ⟨fun he => hc ?_, fun he => hc ?_⟩
          · simp [he]
          · simp only [Bool.or_eq_true, List.any_eq_true, beq_iff_eq]
            exact Or.inr ⟨tok, he, rfl⟩
        · exact h info hmem
      · intro h info hinfo
        exact h info (List.mem_cons_of_mem a hinfo)

theorem find_mem (tok : String) :
    ∀ (cmds : List CommandInfo) (info : CommandInfo),
      CommandRegistry.find cmds tok = some info → info ∈ cmds := by
  intro cmds
  induction cmds with
  | nil => intro info h; cases h
  | cons a as ih =>
    intro info h
    rw [find_cons_eq] at h
    by_cases hc : (a.meta.name == tok || a.meta.aliases.any (fun x => x == tok)) = true
    · rw [if_pos hc] at h
      cases h
      exact List.mem_cons_self a as
    · rw [if_neg hc] at h
      exact List.mem_cons_of_mem a (ih info h)

/-- C1: for a resolved descriptor (with coherent arity bounds, as every
registered descriptor has), an argument list shorter than `min` makes
`execute_command` return `TooFewArguments` with the given count and the
descriptor, and — when `max` is not the unbounded sentinel `usize::MAX` — a
list longer than `max` makes it return `TooManyArguments`; in both cases the
outcome is the same for every registry with the same metadata, i.e. no
handler is ever invoked. -/
theorem execute_arity_short_circuit (cmds : List CommandInfo) (name : String)
    (args : List String) (info : CommandInfo)
    (hfind : CommandRegistry.find cmds name = some info)
    (hmm : info.meta.min ≤ info.meta.max) :
    (args.length < info.meta.min →
      ∀ cmds', sameMetas cmds cmds' →
        CommandRegistry.execute_command cmds' name args =
          .error (.TooFewArguments args.length info.meta)) ∧
    (info.meta.max ≠ USIZE_MAX → info.meta.max < args.length →
      ∀ cmds', sameMetas cmds cmds' →
        CommandRegistry.execute_command cmds' name args =
          .error (.TooManyArguments args.length info.meta)) := by
  have key : ∀ cmds', sameMetas cmds cmds' →
      ∃ info', CommandRegistry.find cmds' name = some info' ∧
        info'.meta = info.meta := by
    intro cmds' h
    have hmap := find_meta_congr name cmds cmds' h
    rw [hfind] at hmap
    cases hf : CommandRegistry.find cmds' name with
    | none => rw [hf] at hmap; cases hmap
    | some i' =>
      rw [hf] at hmap
      simp only [Option.map_some'] at hmap
      exact ⟨i', rfl, (Option.some.injEq _ _ ▸ hmap).symm⟩
  constructor
  · intro hlt cmds' hsm
    obtain ⟨info', hf', hm'⟩ := key cmds' hsm
    simp only [CommandRegistry.execute_command, hf']
    rw [hm', if_pos hlt]
  · intro hne hgt cmds' hsm
    obtain ⟨info', hf', hm'⟩ := key cmds' hsm
    have h1 : ¬ args.length < info.meta.min := by omega
    simp only [CommandRegistry.execute_command, hf']
    rw [hm', if_neg h1, if_pos (show args.length > info.meta.max ∧
      info.meta.max ≠ USIZE_MAX from ⟨hgt, hne⟩)]

/-- C1 witness: a bounded zero-to-one-argument command called with two
arguments yields `TooManyArguments`. -/
theorem execute_arity_short_circuit_witness :
    CommandRegistry.execute_command [helpLike] "help" ["a", "b"] =
      .error (.TooManyArguments 2 helpLike.meta) := by
  have h := execute_arity_short_circuit [helpLike] "help" ["a", "b"] helpLike
    rfl (by decide)
  exact h.2 (by decide) (by decide) [helpLike] rfl

/-- C2 counterexample: with `aliasHolder` (name `a`, alias `x`) registered
before `nameHolder` (name `x`), the token `x` resolves to `aliasHolder` —
the earlier descriptor's alias wins over the later descriptor's name — so
`find(d.name)` does not return `d` for the registered descriptor
`nameHolder`, refuting name-over-alias precedence. -/
theorem find_name_precedence_cex :
    (CommandRegistry.find [aliasHolder, nameHolder] "x").map
        (fun i => i.meta.name) = some "a" ∧
    nameHolder ∈ [aliasHolder, nameHolder] ∧
    nameHolder.meta.name = "x" ∧
    CommandRegistry.find [aliasHolder, nameHolder] "x" ≠ some nameHolder := by
  refine ⟨rfl, by simp, rfl, ?_⟩
  intro h
  rw [show CommandRegistry.find [aliasHolder, nameHolder] "x" =
    some aliasHolder from rfl] at h
  have h2 := congrArg (fun o => o.map fun i => i.meta.name) h
  simp [aliasHolder, nameHolder] at h2

/-- C2 amended: `find` returns the first descriptor in registration order
whose `name` equals the token or whose `aliases` contain it; a name takes no
precedence over an earlier-registered alias.  In particular `find(d.name) = d`
exactly when no earlier-registered descriptor's name or aliases capture
`d.name`, and `find` of an alias returns the first-registered descriptor
carrying it. -/
theorem find_first_match_resolution (pre : List CommandInfo) (d : CommandInfo)
    (post : List CommandInfo) (tok : String)
    (hpre : ∀ e ∈ pre,
      (e.meta.name == tok || e.meta.aliases.any (fun x => x == tok)) = false)
    (hd : (d.meta.name == tok || d.meta.aliases.any (fun x => x == tok)) = true) :
    CommandRegistry.find (pre ++ d :: post) tok = some d := by
  induction pre with
  | nil => rw [List.nil_append, find_cons_eq, if_pos hd]
  | cons a as ih =>
    have ha := hpre a (List.mem_cons_self a as)
    rw [List.cons_append, find_cons_eq, if_neg (by rw [ha]; simp)]
    exact ih (fun e he => hpre e (List.mem_cons_of_mem a he))

/-- C2 amended witness: the name `a` of the later-registered `aliasHolder`
resolves to it because the single earlier descriptor does not capture `a`. -/
theorem find_first_match_resolution_witness :
    CommandRegistry.find [nameHolder, aliasHolder] "a" = some aliasHolder := by
  refine find_first_match_resolution [nameHolder] aliasHolder [] "a" ?_ (by decide)
  intro e he
  rw [List.mem_singleton] at he
  subst he
  decide

/-- C8: `execute_command` returns `CommandNotFound` carrying the dispatched
name exactly when no registered descriptor's name equals it and no registered
descriptor's aliases contain it (given that, as in the source's error
taxonomy, no handler itself fabricates a `CommandNotFound` for that name);
and in the not-found case the outcome is the same for every registry with the
same metadata, i.e. no handler is invoked. -/
theorem command_not_found_iff (cmds : List CommandInfo) (name : String)
    (args : List String)
    (hh : ∀ info ∈ cmds, info.handler args ≠ .error (.CommandNotFound name)) :
    (CommandRegistry.execute_command cmds name args =
        .error (.CommandNotFound name) ↔
      ∀ info ∈ cmds, info.meta.name ≠ name ∧ name ∉ info.meta.aliases) ∧
    ((∀ info ∈ cmds, info.meta.name ≠ name ∧ name ∉ info.meta.aliases) →
      ∀ cmds', sameMetas cmds cmds' →
        CommandRegistry.execute_command cmds' name args =
          .error (.CommandNotFound name)) := by
  have hnone : ∀ (cs : List CommandInfo), CommandRegistry.find cs name = none →
      CommandRegistry.execute_command cs name args =
        .error (.CommandNotFound name) := by
    intro cs h
    simp only [CommandRegistry.execute_command, h]
  constructor
  · constructor
    · intro hex
      rw [← find_none_iff]
      cases hf : CommandRegistry.find cmds name with
      | none => rfl
      | some info =>
        exfalso
        simp only [CommandRegistry.execute_command, hf] at hex
        by_cases h1 : args.length < info.meta.min
        · rw [if_pos h1] at hex
          cases hex
        · rw [if_neg h1] at hex
          by_cases h2 : args.length > info.meta.max ∧ info.meta.max ≠ USIZE_MAX
          · rw [if_pos h2] at hex
            cases hex
          · rw [if_neg h2] at hex
            exact hh info (find_mem name cmds info hf) hex
    · intro h
      exact hnone cmds ((find_none_iff name cmds).mpr h)
  · intro h cmds' hsm
    have hn : CommandRegistry.find cmds name = none :=
      (find_none_iff name cmds).mpr h
    have hmap := find_meta_congr name cmds cmds' hsm
    rw [hn] at hmap
    cases hf : CommandRegistry.find cmds' name with
    | none => exact hnone cmds' hf
    | some i' => rw [hf] at hmap; cases hmap

/-- C8 witness: dispatching an unregistered name over a one-command registry
whose handler cannot fabricate the error. -/
theorem command_not_found_iff_witness :
    CommandRegistry.execute_command [helpLike] "nope" [] =
      .error (.CommandNotFound "nope") := by
  have h := command_not_found_iff [helpLike] "nope" []
    (by intro info hinfo
        rw [List.mem_singleton] at hinfo
        subst hinfo
        intro he
        cases he)
  refine h.1.mpr ?_
  intro info hinfo
  rw [List.mem_singleton] at hinfo
  subst hinfo
  refine ⟨by decide, by decide⟩

/-- C4 counterexample: for the `touch` shape — one required `Vec<String>`
parameter — the macro's `min_count` counts the variadic spec (it only skips
`Option`-typed specs), so the built descriptor has `min = 1`, not the `0`
the claim derives from "neither optional nor variadic". -/
theorem min_arity_counts_variadic_cex :
    (cmd_touch_info (fun _ => .ok ())).meta.min = 1 ∧
    spec_min_arity cmd_touch_tys = 0 ∧
    min_count cmd_touch_tys ≠ spec_min_arity cmd_touch_tys := by
  refine ⟨rfl, rfl, by decide⟩

/-- C4 amended: the descriptor's `min` is the count of parameter specs that
are not `Option`-typed — a required variadic (`Vec`) spec is included — so a
command whose only parameter is a required variadic sequence has `min = 1`,
and dispatching it with zero arguments already fails with `TooFewArguments`. -/
theorem min_arity_nonoption_count :
    (∀ tys, min_count tys =
      (tys.filter (fun ty => (extract_option_inner ty).isNone)).length) ∧
    (∀ t, min_count [RustTy.vec t] = 1) ∧
    (∀ t fn,
      CommandRegistry.execute_command
        [expanded_command "vcmd" "" [] [RustTy.vec t] fn] "vcmd" [] =
      .error (.TooFewArguments 0 (expanded_meta "vcmd" "" [] [RustTy.vec t]))) ∧
    (∀ tys, min_count tys ≤ tys.length) := by
  refine ⟨fun _ => rfl, fun _ => rfl, fun _ _ => rfl, ?_⟩
  intro tys
  exact List.length_filter_le _ tys

/-- C5: the descriptor built for `touch` (one required `Vec<String>`
parameter) has `min = 1` and unbounded `max`; `execute("touch", [])` fails
with `TooFewArguments` carrying given count `0` and that descriptor; and
`execute("touch", ["a","b","c"])` invokes the underlying function with
exactly the bound sequence `["a","b","c"]` — for every underlying function,
so the trailing variadic spec consumes all remaining tokens in order. -/
theorem touch_variadic_binding :
    (cmd_touch_info (fun _ => .ok ())).meta.min = 1 ∧
    (cmd_touch_info (fun _ => .ok ())).meta.max = USIZE_MAX ∧
    (∀ fn, CommandRegistry.execute_command [cmd_touch_info fn] "touch" [] =
      .error (.TooFewArguments 0 (cmd_touch_info fn).meta)) ∧
    (∀ fn, CommandRegistry.execute_command [cmd_touch_info fn] "touch"
        ["a", "b", "c"] =
      fn [Value.list [Value.str "a", Value.str "b", Value.str "c"]]) := by
  exact ⟨rfl, rfl, fun _ => rfl, fun _ => rfl⟩

/-- A parameter shape the claim calls invalid: a required spec (`&str`)
follows an optional one (`Option<&str>`). -/
def bad_shape : List RustTy := [RustTy.option RustTy.str, RustTy.str]

/-- C6 counterexample: the macro accepts the required-after-optional shape —
expansion builds the descriptor instead of failing — and the violation
surfaces at call time: with one argument the generated binding consumes it
for the leading optional parameter and fails `TooFewArguments` for the
required one. -/
theorem shape_validation_absent_cex :
    (command_expand
      { name := some "demo", description := none, aliases := [],
        param_tys := bad_shape }).isSome = true ∧
    expanded_handler (expanded_meta "demo" "" [] bad_shape) bad_shape
      (fun _ => .ok ()) ["a"] =
      .error (.TooFewArguments 1 (expanded_meta "demo" "" [] bad_shape)) := by
  exact ⟨rfl, rfl⟩

/-- C6 amended: the `command` macro performs no parameter-shape validation —
whenever a `name` attribute is supplied, expansion succeeds for every shape,
including required-after-optional, multiple `Vec`s and a `Vec` before the
last position, computing `min`/`max` from the shape; invalid shapes are not
rejected at build time by the macro (a misplaced `Vec` only fails later in
type checking for want of a `ParseArgument` impl), and a required spec after
an optional one surfaces as a call-time `TooFewArguments`. -/
theorem macro_accepts_every_shape (inp : MacroInput) (n : String)
    (hname : inp.name = some n) :
    command_expand inp =
      some (expanded_meta n (inp.description.getD "") inp.aliases inp.param_tys,
        inp.param_tys) := by
  simp only [command_expand, hname]

/-- C6 amended witness: the macro builds a descriptor for a shape with two
`Vec` parameters, one of them non-final. -/
theorem macro_accepts_every_shape_witness :
    command_expand
      { name := some "w", description := some "d", aliases := ["v"],
        param_tys := [RustTy.vec RustTy.str, RustTy.vec RustTy.i32] } =
      some (expanded_meta "w" "d" ["v"]
          [RustTy.vec RustTy.str, RustTy.vec RustTy.i32],
        [RustTy.vec RustTy.str, RustTy.vec RustTy.i32]) := by
  exact macro_accepts_every_shape _ "w" rfl

theorem parseArgument_bool_eq (s : String) :
    parseArgument RustTy.bool s =
      (if (to_lowercase s == "true" || to_lowercase s == "1") = true then
        .ok (.bool true)
      else if (to_lowercase s == "false" || to_lowercase s == "0") = true then
        .ok (.bool false)
      else
        .error (.CommandFailed ("Invalid bool: '" ++ s ++ "'"))) := rfl

/-- C7: the boolean converter is case-insensitive — every token lowercasing
to `true` or `1` parses to `true`, every token lowercasing to `false` or `0`
parses to `false`, and every other token yields an error whose message names
the offending raw value verbatim. -/
theorem bool_converter_spec (s : String) :
    (to_lowercase s = "true" ∨ to_lowercase s = "1" →
      parseArgument RustTy.bool s = .ok (Value.bool true)) ∧
    (to_lowercase s = "false" ∨ to_lowercase s = "0" →
      parseArgument RustTy.bool s = .ok (Value.bool false)) ∧
    (to_lowercase s ≠ "true" → to_lowercase s ≠ "1" →
      to_lowercase s ≠ "false" → to_lowercase s ≠ "0" →
      parseArgument RustTy.bool s =
        .error (.CommandFailed ("Invalid bool: '" ++ s ++ "'"))) := by
  refine ⟨?_, ?_, ?_⟩
  · rintro (h | h) <;> rw [parseArgument_bool_eq, h] <;> rfl
  · rintro (h | h) <;> rw [parseArgument_bool_eq, h] <;> rfl
  · intro h1 h2 h3 h4
    have c1 : ¬ ((to_lowercase s == "true" || to_lowercase s == "1") = true) := by
      intro hc
      rcases Bool.or_eq_true_iff.mp hc with h | h
      · exact h1 (beq_iff_eq.mp h)
      · exact h2 (beq_iff_eq.mp h)
    have c2 : ¬ ((to_lowercase s == "false" || to_lowercase s == "0") = true) := by
      intro hc
      rcases Bool.or_eq_true_iff.mp hc with h | h
      · exact h3 (beq_iff_eq.mp h)
      · exact h4 (beq_iff_eq.mp h)
    rw [parseArgument_bool_eq, if_neg c1, if_neg c2]

/-- C7 witness: `parse("TRUE") = true` and `parse("yes")` fails naming
`yes`. -/
theorem bool_converter_spec_witness :
    parseArgument RustTy.bool "TRUE" = .ok (Value.bool true) ∧
    parseArgument RustTy.bool "yes" =
      .error (.CommandFailed "Invalid bool: 'yes'") := by
  constructor
  · exact (bool_converter_spec "TRUE").1 (Or.inl rfl)
  · exact (bool_converter_spec "yes").2.2 (by decide) (by decide) (by decide)
      (by decide)

/-- C3: conversion failures abort the whole call with the converter's error
and the underlying command function is never invoked.  Conjuncts: (1) the
spec's mixed scenario — two required strings then a variadic integer tail —
fails on `x` with the integer converter's error naming `x`, for every
underlying function; (2) whenever the generated binding produces an error,
the generated handler surfaces exactly that error for every underlying
function; (3) whenever the binding does not fully succeed the handler's
outcome is independent of the underlying function — no partial invocation;
(4) elementwise tail conversion is fail-fast: the first failing token's
error aborts the collection. -/
theorem conversion_fail_fast :
    (∀ fn, expanded_handler (expanded_meta "mixed" "" [] mixed_tys) mixed_tys
        fn ["a", "b", "3", "x", "5"] =
      .error (.CommandFailed "Invalid i32: 'x'")) ∧
    (∀ meta tys args fn e, generated_call meta tys args = some (.error e) →
      expanded_handler meta tys fn args = .error e) ∧
    (∀ meta tys args fn fn',
      (∀ vals, generated_call meta tys args ≠ some (.ok vals)) →
      expanded_handler meta tys fn args = expanded_handler meta tys fn' args) ∧
    (∀ ty bad ys e, parseArgument ty bad = .error e →
      ∀ xs, (∀ x ∈ xs, ∃ v, parseArgument ty x = .ok v) →
        parse_all ty (xs ++ bad :: ys) = .error e) := by
  refine ⟨fun _ => rfl, ?_, ?_, ?_⟩
  · intro meta tys args fn e h
    simp only [expanded_handler, h]
  · intro meta tys args fn fn' h
    unfold expanded_handler
    cases hg : generated_call meta tys args with
    | none => rfl
    | some r =>
      cases r with
      | error e => rfl
      | ok vals => exact absurd hg (h vals)
  · intro ty bad ys e hbad xs
    induction xs with
    | nil =>
      intro _
      simp only [List.nil_append, parse_all, hbad]
    | cons x xs ih =>
      intro h
      obtain ⟨v, hv⟩ := h x (List.mem_cons_self x xs)
      have ih' := ih (fun y hy => h y (List.mem_cons_of_mem x hy))
      simp only [List.cons_append, parse_all, hv, List.append_eq, ih']

/-- C3 witness: the fail-fast tail conversion at the concrete mixed input. -/
theorem conversion_fail_fast_witness :
    parse_all RustTy.i32 (["3"] ++ "x" :: ["5"]) =
      .error (.CommandFailed "Invalid i32: 'x'") := by
  refine conversion_fail_fast.2.2.2 RustTy.i32 "x" ["5"] _ rfl ["3"] ?_
  intro x hx
  rw [List.mem_singleton] at hx
  subst hx
  exact ⟨Value.i32 3, rfl⟩

theorem parse_single_sem_ne_none (meta : CommandMeta) (args : List String)
    (ty : RustTy) (idx : Nat) : parse_single_sem meta args ty idx ≠ none := by
  cases h : extract_option_inner ty with
  | some inner =>
    by_cases hlen : args.length > idx
    · obtain ⟨tok, htok⟩ : ∃ tok, args.get? idx = some tok :=
        ⟨args.get ⟨idx, hlen⟩, List.get?_eq_get hlen⟩
      simp only [parse_single_sem, h, if_pos hlen, htok]
      intro hcon
      cases hparse : parseArgument inner tok <;> rw [hparse] at hcon <;>
        cases hcon
    · simp only [parse_single_sem, h, if_neg hlen]
      intro hcon
      cases hcon
  | none =>
    by_cases hlen : args.length ≤ idx
    · simp only [parse_single_sem, h, if_pos hlen]
      intro hcon
      cases hcon
    · obtain ⟨tok, htok⟩ : ∃ tok, args.get? idx = some tok :=
        ⟨args.get ⟨idx, by omega⟩, List.get?_eq_get (by omega)⟩
      simp only [parse_single_sem, h, if_neg hlen, htok]
      intro hcon
      cases hcon

theorem slice_from_le (args : List String) (i : Nat) (h : i ≤ args.length) :
    slice_from args i = some (args.drop i) := by
  unfold slice_from
  rw [if_pos h]

theorem bind_expr_ne_none (meta : CommandMeta) (last_index : Nat)
    (is_last_vec : Bool) (last_vec_inner : Option RustTy)
    (is_last_option_vec : Bool) (args : List String) (i : Nat) (ty : RustTy)
    (hvec : is_last_vec = true → ∃ t, last_vec_inner = some t) :
    bind_expr meta last_index is_last_vec last_vec_inner is_last_option_vec
      args i ty ≠ none := by
  by_cases h1 : i < last_index
  · simp only [bind_expr, if_pos h1]
    exact parse_single_sem_ne_none meta args ty i
  · by_cases h2 : is_last_vec = true
    · obtain ⟨t, ht⟩ := hvec h2
      by_cases h3 : is_last_option_vec = true
      · by_cases h4 : args.length > i
        · simp only [bind_expr, if_neg h1, h2, if_true, ht, h3, if_pos h4,
            slice_from_le args i (by omega)]
          intro hcon
          cases hparse : parse_all t (args.drop i) <;> rw [hparse] at hcon <;>
            cases hcon
        · simp only [bind_expr, if_neg h1, h2, if_true, ht, h3, if_neg h4]
          intro hcon
          cases hcon
      · have h3' : is_last_option_vec = false := by
          cases is_last_option_vec
          · rfl
          · exact absurd rfl h3
        by_cases h4 : args.length ≤ i
        · simp only [bind_expr, if_neg h1, h2, if_true, ht, h3', if_pos h4]
          intro hcon
          cases hcon
        · simp only [bind_expr, if_neg h1, h2, if_true, ht, h3', if_neg h4,
            slice_from_le args i (by omega)]
          intro hcon
          cases hparse : parse_all t (args.drop i) <;> rw [hparse] at hcon <;>
            cases hcon
    · have h2' : is_last_vec = false := by
        cases is_last_vec
        · rfl
        · exact absurd rfl h2
      simp only [bind_expr, if_neg h1, h2', if_false]
      exact parse_single_sem_ne_none meta args ty i

theorem bind_from_ne_none (meta : CommandMeta) (last_index : Nat)
    (is_last_vec : Bool) (last_vec_inner : Option RustTy)
    (is_last_option_vec : Bool) (args : List String)
    (hvec : is_last_vec = true → ∃ t, last_vec_inner = some t) :
    ∀ (tys : List RustTy) (i : Nat),
      bind_from meta last_index is_last_vec last_vec_inner is_last_option_vec
        args i tys ≠ none := by
  intro tys
  induction tys with
  | nil =>
    intro i hcon
    cases hcon
  | cons ty rest ih =>
    intro i
    unfold bind_from
    cases hb : bind_expr meta last_index is_last_vec last_vec_inner
        is_last_option_vec args i ty with
    | none =>
      exact absurd hb (bind_expr_ne_none meta last_index is_last_vec
        last_vec_inner is_last_option_vec args i ty hvec)
    | some r =>
      cases r with
      | error e =>
        intro hcon
        cases hcon
      | ok v =>
        cases hrest : bind_from meta last_index is_last_vec last_vec_inner
            is_last_option_vec args (i + 1) rest with
        | none => exact absurd hrest (ih (i + 1))
        | some r' =>
          cases r' with
          | error e =>
            intro hcon
            cases hcon
          | ok vs =>
            intro hcon
            cases hcon

theorem detect_last_vec_some (tys : List RustTy)
    (h : (detect_last_arg tys).1 = true) :
    ∃ t, (detect_last_arg tys).2.1 = some t := by
  cases hl : tys.getLast? with
  | none =>
    simp only [detect_last_arg, hl] at h
    cases h
  | some lastTy =>
    simp only [detect_last_arg, hl] at h ⊢
    cases hv : extract_vec_inner lastTy with
    | none =>
      rw [hv] at h
      simp at h
    | some t =>
      simp only [option_or, hv]
      exact ⟨t, rfl⟩

/-- C9: the binding code generated by the macro never reads an index or a
slice out of the argument list's bounds: for every parameter shape and every
input argument list, the generated call — in which every Rust index access
`args[i]`, slice `args[i..]` and unwrap is modelled as a fallible
(`Option`-valued) operation with `none` standing for a panic — returns a
value, never the panic marker: every access is covered by a preceding length
guard. -/
theorem generated_binding_no_oob (meta : CommandMeta) (tys : List RustTy)
    (args : List String) : generated_call meta tys args ≠ none := by
  by_cases h1 : args.length < min_count tys
  · simp only [generated_call, if_pos h1]
    intro hcon
    cases hcon
  · by_cases h2 : args.length > macro_max tys
    · simp only [generated_call, if_neg h1, if_pos h2]
      intro hcon
      cases hcon
    · simp only [generated_call, if_neg h1, if_neg h2]
      refine bind_from_ne_none meta (tys.length - 1) _ _ _ args ?_ tys 0
      intro hv
      exact detect_last_vec_some tys hv

theorem extract_option_inner_option (t : RustTy) :
    extract_option_inner (RustTy.option t) = some t := rfl

theorem extract_vec_inner_option (t : RustTy) :
    extract_vec_inner (RustTy.option t) = none := rfl

/-- A shape with a leading optional parameter followed by one more
parameter: `fn(opt: Option<A>, req: B)`. -/
def opt_req_tys (a b : RustTy) : List RustTy := [RustTy.option a, b]

/-- The descriptor metadata the macro builds for `opt_req_tys`. -/
def opt_req_meta (a b : RustTy) : CommandMeta :=
  expanded_meta "optreq" "" [] (opt_req_tys a b)

theorem opt_req_min (a b : RustTy) (hb1 : extract_option_inner b = none) :
    (opt_req_meta a b).min = 1 := by
  simp [opt_req_meta, expanded_meta, opt_req_tys, min_count,
    extract_option_inner_option, hb1, List.filter]

theorem opt_req_max (a b : RustTy) (hb1 : extract_option_inner b = none)
    (hb2 : extract_vec_inner b = none) :
    (opt_req_meta a b).max = 2 := by
  simp [opt_req_meta, expanded_meta, opt_req_tys, macro_max, detect_last_arg,
    List.getLast?, hb1, hb2]

theorem opt_req_min_count (a b : RustTy) (hb1 : extract_option_inner b = none) :
    min_count [RustTy.option a, b] = 1 := by
  simp [min_count, extract_option_inner_option, hb1, List.filter]

theorem opt_req_macro_max (a b : RustTy) (hb1 : extract_option_inner b = none)
    (hb2 : extract_vec_inner b = none) :
    macro_max [RustTy.option a, b] = 2 := by
  simp [macro_max, detect_last_arg, List.getLast?, hb1, hb2]

theorem opt_req_detect (a b : RustTy) (hb1 : extract_option_inner b = none)
    (hb2 : extract_vec_inner b = none) :
    detect_last_arg [RustTy.option a, b] = (false, none, false) := by
  simp [detect_last_arg, List.getLast?, hb1, hb2, option_or]

/-- C10: the generated binding treats an `Option`-typed parameter at any
position `i` — including a non-trailing one — as optional, and binds every
required parameter, including one declared after the optional, at its own
fixed positional index.  For the shape `(Option<A>, B)` with scalar required
`B`: the built bounds are `min 1` / `max 2`; zero arguments fail
`TooFewArguments 0` at the precheck; with one (convertible) argument the
optional position `0` consumes it and the required position `1` fails
`TooFewArguments 1` (absent since `args.len() ≤ 1`); with two arguments
position `0` binds `Some` of the converted token and position `1` its own
token, and the function is invoked; a conversion error at the optional
position aborts with that error.  For the shape `(Option<A>, Option<B>)`,
zero arguments bind `None` at both positions — `None` exactly when
`args.len() ≤ i`. -/
theorem optional_param_positional_binding (a b : RustTy)
    (hb1 : extract_option_inner b = none) (hb2 : extract_vec_inner b = none) :
    (opt_req_meta a b).min = 1 ∧
    (opt_req_meta a b).max = 2 ∧
    (∀ fn, expanded_handler (opt_req_meta a b) (opt_req_tys a b) fn [] =
      .error (.TooFewArguments 0 (opt_req_meta a b))) ∧
    (∀ fn x va, parseArgument a x = .ok va →
      expanded_handler (opt_req_meta a b) (opt_req_tys a b) fn [x] =
        .error (.TooFewArguments 1 (opt_req_meta a b))) ∧
    (∀ fn x y va vb, parseArgument a x = .ok va → parseArgument b y = .ok vb →
      expanded_handler (opt_req_meta a b) (opt_req_tys a b) fn [x, y] =
        fn [Value.opt (some va), vb]) ∧
    (∀ fn x y e, parseArgument a x = .error e →
      expanded_handler (opt_req_meta a b) (opt_req_tys a b) fn [x, y] =
        .error e) ∧
    (∀ g, expanded_handler
        (expanded_meta "optopt" "" [] [RustTy.option a, RustTy.option b])
        [RustTy.option a, RustTy.option b] g [] =
      g [Value.opt none, Value.opt none]) := by
  refine ⟨opt_req_min a b hb1, opt_req_max a b hb1 hb2, ?_, ?_, ?_, ?_, ?_⟩
  · intro fn
    simp [expanded_handler, generated_call, opt_req_tys,
      opt_req_min_count a b hb1, opt_req_macro_max a b hb1 hb2,
      opt_req_detect a b hb1 hb2]
  · intro fn x va hpa
    simp [expanded_handler, generated_call, opt_req_min_count a b hb1,
      opt_req_macro_max a b hb1 hb2, opt_req_detect a b hb1 hb2, opt_req_tys,
      bind_from, bind_expr, parse_single_sem, extract_option_inner_option,
      hb1, hpa]
  · intro fn x y va vb hpa hpb
    simp [expanded_handler, generated_call, opt_req_min_count a b hb1,
      opt_req_macro_max a b hb1 hb2, opt_req_detect a b hb1 hb2, opt_req_tys,
      bind_from, bind_expr, parse_single_sem, extract_option_inner_option,
      hb1, hpa, hpb]
  · intro fn x y e hpa
    simp [expanded_handler, generated_call, opt_req_min_count a b hb1,
      opt_req_macro_max a b hb1 hb2, opt_req_detect a b hb1 hb2, opt_req_tys,
      bind_from, bind_expr, parse_single_sem, extract_option_inner_option,
      hb1, hpa]
  · intro g
    simp [expanded_handler, generated_call, min_count, macro_max,
      detect_last_arg, List.getLast?, List.filter, extract_option_inner_option,
      extract_vec_inner_option, hb2, option_or, bind_from, bind_expr,
      parse_single_sem]

/-- C10 witness: shape `(Option<i32>, &str)` called with the single argument
`5` — the optional first position consumes it and the required second
position fails `TooFewArguments`. -/
theorem optional_param_positional_binding_witness :
    expanded_handler (opt_req_meta RustTy.i32 RustTy.str)
      (opt_req_tys RustTy.i32 RustTy.str) (fun _ => .ok ()) ["5"] =
      .error (.TooFewArguments 1 (opt_req_meta RustTy.i32 RustTy.str)) := by
  exact (optional_param_positional_binding RustTy.i32 RustTy.str rfl
    rfl).2.2.2.1 (fun _ => .ok ()) "5" (Value.i32 5) rfl

/-- Every descriptor the macro builds has coherent arity bounds
(`min ≤ max`) whenever the parameter count fits in `usize` — which justifies
assuming `min ≤ max` for registered descriptors. -/
theorem expanded_min_le_max (n d : String) (al : List String)
    (tys : List RustTy) (h : tys.length ≤ USIZE_MAX) :
    (expanded_meta n d al tys).min ≤ (expanded_meta n d al tys).max := by
  have h1 : (expanded_meta n d al tys).min = min_count tys := rfl
  have h2 : (expanded_meta n d al tys).max = macro_max tys := rfl
  rw [h1, h2]
  unfold macro_max
  by_cases hv : (detect_last_arg tys).1 = true
  · rw [if_pos hv]
    exact le_trans (List.length_filter_le _ _) h
  · rw [if_neg hv]
    exact List.length_filter_le _ _
